import Mathlib

/-!
Shallow embedding of the path-resolution pipeline of `phpgao/media_tool`.

The repository has two near-identical revisions of the same program:
`src/main.go` (hard-coded model-alias map, no fallback for an unknown
device id) and `src/unnamed/part_000` (alias map loaded from a YAML
config file, with a fallback to the raw id; subcommands `file`/`ext`).
The pipeline below follows `src/unnamed/part_000` (the revision the
spec's AliasResolver and Configuration sections describe); where the two
revisions differ in a way a claim depends on, the `src/main.go` variant
is embedded as well under a `V1` suffix.

Filesystem, EXIF decoding, stdin and the clock are effects; they are
modelled as explicit inputs (an `Env` record of functions and values).
Go `(value, error)` pairs are modelled as `α × Option String` with
`none` standing for a nil error.
-/

/-- A calendar timestamp, the shallow embedding of Go `time.Time`'s wall
clock fields (year, month, day, hour, minute, second). -/
structure DateTime where
  year : Nat
  month : Nat
  day : Nat
  hour : Nat
  minute : Nat
  second : Nat
deriving DecidableEq, Repr

/-- The zero `time.Time` value: January 1, year 1, 00:00:00.
Go formats it as year "0001", month "01". -/
def zeroTime : DateTime := ⟨1, 1, 1, 0, 0, 0⟩

/-- The decimal digit character for `n % 10`. -/
def digitChar (n : Nat) : Char := Char.ofNat (48 + n % 10)

/-- Decimal digit list of a natural number, most significant first
(models Go's decimal integer printing). -/
def natDigits (n : Nat) : List Char :=
  if _h : n < 10 then [digitChar n]
  else natDigits (n / 10) ++ [digitChar n]
decreasing_by
  exact Nat.div_lt_self (by omega) (by omega)

/-- Go `Format` verb "01"/"02"/"15"/"04"/"05": two-digit zero-padded
field (wider if the value needs more digits). -/
def pad2 (n : Nat) : String :=
  if n < 100 then String.mk [digitChar (n / 10), digitChar n]
  else String.mk (natDigits n)

/-- Go `Format` verb "2006": four-digit zero-padded year (wider if the
value needs more digits). -/
def pad4 (n : Nat) : String :=
  if n < 10000 then
    String.mk [digitChar (n / 1000), digitChar (n / 100), digitChar (n / 10), digitChar n]
  else String.mk (natDigits n)

/-- Go `time.Format("20060102150405")`, used by `generateNewFileName`. -/
def format14 (t : DateTime) : String :=
  pad4 t.year ++ pad2 t.month ++ pad2 t.day ++ pad2 t.hour ++ pad2 t.minute ++ pad2 t.second

/-- ASCII decimal digit test (the regexp class `\d`). -/
def isDigitChar (c : Char) : Bool :=
  decide (48 ≤ c.toNat) && decide (c.toNat ≤ 57)

/-- Value of a decimal digit string, most significant first. -/
def digitsToNat (ds : List Char) : Nat :=
  ds.foldl (fun acc c => acc * 10 + (c.toNat - 48)) 0

/-- Join nonempty path elements with "/" (helper for `filepathJoin`). -/
def joinSep : List String → String
  | [] => ""
  | [a] => a
  | a :: b :: rest => a ++ "/" ++ joinSep (b :: rest)

/-- The join step of Go `filepath.Join`: empty elements are skipped and
the rest joined with the separator. The real `Join` additionally
applies `filepath.Clean` to the result, modelled separately by
`filepathClean` below; on components that are single clean path
elements (`cleanComponent`) the cleaning is provably the identity, so
the two agree — proved below where it is load-bearing. -/
def filepathJoin (parts : List String) : String :=
  joinSep (parts.filter (fun s => ¬ s = ""))

/-- Split a character list on '/' (the element sequence
`filepath.Clean` processes); empty segments mark repeated, leading or
trailing separators. -/
def splitSlash : List Char → List (List Char)
  | [] => [[]]
  | c :: rest =>
    if c = '/' then [] :: splitSlash rest
    else
      match splitSlash rest with
      | h :: t => (c :: h) :: t
      | [] => [[c]]

/-- The element pass of Go `filepath.Clean`: drop empty and "."
elements; ".." pops the preceding element, is dropped at the root of a
rooted path, and accumulates at the front of a relative path. -/
def cleanStack (rooted : Bool) : List (List Char) → List (List Char) → List (List Char)
  | [], stack => stack.reverse
  | e :: rest, stack =>
    if e = [] ∨ e = ['.'] then cleanStack rooted rest stack
    else if e = ['.', '.'] then
      match stack with
      | [] => if rooted then cleanStack rooted rest [] else cleanStack rooted rest [['.', '.']]
      | top :: stk2 =>
        if top = ['.', '.'] then cleanStack rooted rest (['.', '.'] :: top :: stk2)
        else cleanStack rooted rest stk2
    else cleanStack rooted rest (e :: stack)

/-- Join character-list path elements with '/'. -/
def joinSepL : List (List Char) → List Char
  | [] => []
  | [a] => a
  | a :: b :: rest => a ++ '/' :: joinSepL (b :: rest)

/-- Go (Unix) `filepath.Clean`: "" becomes "."; otherwise the slash
elements are processed by `cleanStack` and rejoined, keeping a single
leading separator for a rooted path and yielding "." for an emptied
relative path. -/
def filepathClean (p : String) : String :=
  if p = "" then "."
  else if p.data.head? == some '/' then
    String.mk ('/' :: joinSepL (cleanStack true (splitSlash p.data) []))
  else if cleanStack false (splitSlash p.data) [] = [] then "."
  else String.mk (joinSepL (cleanStack false (splitSlash p.data) []))

/-- A string that is a single clean path element: non-empty, not "." or
"..", and separator-free. `filepath.Clean` leaves a join of such
elements unchanged. -/
def cleanComponent (s : String) : Bool :=
  !(s == "") && !(s == ".") && !(s == "..") && s.data.all (fun c => !(c == '/'))

/-- Go `filepath.Base`: the last element of the path; "." for an empty
path, "/" if the path is all separators. -/
def baseName (p : String) : String :=
  if p = "" then "."
  else
    let r := p.data.reverse.dropWhile (fun c => c == '/')
    if r = [] then "/"
    else String.mk (r.takeWhile (fun c => !(c == '/'))).reverse

/-- Go `filepath.Dir`: everything before the final path element
(modelled for the simple slash-separated paths this program builds). -/
def dirName (p : String) : String :=
  match p.data.reverse.dropWhile (fun c => !(c == '/')) with
  | [] => "."
  | _ :: t => if t = [] then "/" else String.mk t.reverse

/-- A character ending a filename extension scan: '.' or '/'. -/
def extDelim (c : Char) : Bool := c == '.' || c == '/'

/-- Extension of a reversed character list: the reversed extension
(including the dot) if the first delimiter reached is a dot. -/
def extRev (r : List Char) : List Char :=
  match r.dropWhile (fun c => !extDelim c) with
  | '.' :: _ => r.takeWhile (fun c => !extDelim c) ++ ['.']
  | _ => []

/-- Go `filepath.Ext`: the suffix beginning at the final dot in the
final slash-separated element; empty if there is no dot. -/
def filepathExt (p : String) : String :=
  String.mk (extRev p.data.reverse).reverse

/-- Go `strings.TrimSuffix`. -/
def trimSuffix (s suff : String) : String :=
  if suff.data.isSuffixOf s.data then
    String.mk (s.data.take (s.data.length - suff.data.length))
  else s

/-- Go `strings.ToLower` (ASCII, the only case this program meets). -/
def toLowerStr (s : String) : String := String.mk (s.data.map Char.toLower)

/-- `getFileExtension` from src/unnamed/part_000 (lines 522-528):
`filepath.Ext`, optionally with the dot stripped, lower-cased. -/
def getFileExtension (path : String) (needDot : Bool) : String :=
  let extension := filepathExt path
  let extension := if ¬ needDot then
      (if extension.data.head? = some '.' then String.mk (extension.data.drop 1) else extension)
    else extension
  toLowerStr extension

/-- Go `strings.Trim(s, "\"")` as used by `getTagString`: strip all
leading and trailing double quotes. -/
def trimQuotes (s : String) : String :=
  String.mk (((s.data.dropWhile (fun c => c == '"')).reverse.dropWhile
    (fun c => c == '"')).reverse)

/-- The fixed EXIF timestamp layout (`const layout`, both revisions). -/
def layout : String := "2006:01:02 15:04:05"

/-- Read exactly `n` decimal digits, returning their value and the rest
(Go `time` package fixed-width numeric field parsing). -/
def readDigitsAux : Nat → Nat → List Char → Option (Nat × List Char)
  | 0, acc, s => some (acc, s)
  | n + 1, acc, c :: s =>
      if isDigitChar c then readDigitsAux n (acc * 10 + (c.toNat - 48)) s else none
  | _ + 1, _, [] => none

def readDigits (n : Nat) (s : List Char) : Option (Nat × List Char) :=
  readDigitsAux n 0 s

/-- Walk a Go reference layout ("2006" year, "01" month, "02" day,
"15" hour, "04" minute, "05" second, anything else literal) against an
input, accumulating fields; fails on a malformed or leftover input. -/
def parseTimeAux : List Char → List Char → DateTime → Option DateTime
  | '2' :: '0' :: '0' :: '6' :: lt, s, acc =>
      match readDigits 4 s with
      | some (v, s2) => parseTimeAux lt s2 { acc with year := v }
      | none => none
  | '0' :: '1' :: lt, s, acc =>
      match readDigits 2 s with
      | some (v, s2) => parseTimeAux lt s2 { acc with month := v }
      | none => none
  | '0' :: '2' :: lt, s, acc =>
      match readDigits 2 s with
      | some (v, s2) => parseTimeAux lt s2 { acc with day := v }
      | none => none
  | '1' :: '5' :: lt, s, acc =>
      match readDigits 2 s with
      | some (v, s2) => parseTimeAux lt s2 { acc with hour := v }
      | none => none
  | '0' :: '4' :: lt, s, acc =>
      match readDigits 2 s with
      | some (v, s2) => parseTimeAux lt s2 { acc with minute := v }
      | none => none
  | '0' :: '5' :: lt, s, acc =>
      match readDigits 2 s with
      | some (v, s2) => parseTimeAux lt s2 { acc with second := v }
      | none => none
  | c :: lt, c2 :: s, acc => if c = c2 then parseTimeAux lt s acc else none
  | _ :: _, [], _ => none
  | [], [], acc => some acc
  | [], _ :: _, _ => none

/-- Gregorian leap year (Go `isLeap`). -/
def isLeap (y : Nat) : Bool := (y % 4 = 0 && ¬ y % 100 = 0) || y % 400 = 0

/-- Days in a month (Go `daysIn`). -/
def daysIn (year month : Nat) : Nat :=
  if month = 2 then (if isLeap year then 29 else 28)
  else if month = 4 ∨ month = 6 ∨ month = 9 ∨ month = 11 then 30
  else 31

/-- Go `time.Parse` range validation: month 1-12, day within the month,
hour 0-23, minute and second 0-59. -/
def validate (t : DateTime) : Option DateTime :=
  if 1 ≤ t.month ∧ t.month ≤ 12 ∧ 1 ≤ t.day ∧ t.day ≤ daysIn t.year t.month
      ∧ t.hour ≤ 23 ∧ t.minute ≤ 59 ∧ t.second ≤ 59 then
    some t
  else none

/-- Go `time.Parse(layout, s)`: `none` models a non-nil parse error;
all callers in this program ignore the error and then hold the zero
time, modelled by `Option.getD zeroTime`. -/
def parseTime (lay s : String) : Option DateTime :=
  match parseTimeAux lay.data s.data ⟨0, 1, 1, 0, 0, 0⟩ with
  | some t => validate t
  | none => none

/-- Civil date and clock of a Unix second count shifted by a zone
offset `off` (seconds east of UTC): Go `time.Unix(ts, 0)` observed in a
local zone whose offset at that instant is `off`. Uses the standard
days-to-civil conversion. -/
def unixToDateTime (off : Int) (ts : Int) : DateTime :=
  let t : Int := ts + off
  let days : Int := Int.fdiv t 86400
  let secs : Nat := (t - days * 86400).toNat
  let z : Int := days + 719468
  let era : Int := Int.fdiv z 146097
  let doe : Nat := (z - era * 146097).toNat
  let yoe : Nat := (doe - doe / 1460 + doe / 36524 - doe / 146096) / 365
  let doy : Nat := doe - (365 * yoe + yoe / 4 - yoe / 100)
  let mp : Nat := (5 * doy + 2) / 153
  let d : Nat := doy - (153 * mp + 2) / 5 + 1
  let m : Nat := if mp < 10 then mp + 3 else mp - 9
  let y : Int := (yoe : Int) + era * 400 + (if m ≤ 2 then 1 else 0)
  ⟨y.toNat, m, d, secs / 3600, secs % 3600 / 60, secs % 60⟩

/-- The EXIF tags this program reads from a file: the raw string values
of the "Model" and "DateTimeOriginal" tags (each `none` when
`exif.Get` fails for that tag). An absent record models a file that
cannot be opened or whose EXIF block fails to decode. -/
structure ExifRecord where
  model : Option String
  dateTimeOriginal : Option String

/-- `readExif` from src/unnamed/part_000 (lines 383-418): on any open,
decode or tag failure return ""; look the (quote-trimmed) model up in
the configured alias map, falling back to the raw model when the map
yields the empty string; parse the timestamp with the fixed layout,
ignoring the parse error (zero time on failure); join
alias/year/month/basename. -/
def readExif (exifOf : String → Option ExifRecord) (modelMap : String → Option String)
    (file : String) : String :=
  match exifOf file with
  | none => ""
  | some x =>
    match x.model with
    | none => ""
    | some m0 =>
      let model := trimQuotes m0
      -- Go `y.ModelMap[model]` yields "" when the key is absent
      let modelAlias := match modelMap model with
        | some a => a
        | none => ""
      let modelAlias := if modelAlias = "" then model else modelAlias
      match x.dateTimeOriginal with
      | none => ""
      | some t0 =>
        let tm := (parseTime layout (trimQuotes t0)).getD zeroTime
        filepathJoin [modelAlias, pad4 tm.year, pad2 tm.month, baseName file]

/-- The hard-coded `modelAliasMap` of src/main.go (lines 50-53),
as a lookup function (`none` = key absent). -/
def modelAliasMap : String → Option String := fun m =>
  if m = "2304FPN6DC" then some "Xiaomi13Ultra"
  else if m = "22021211RC" then some "RedmiK40S"
  else none

/-- `readExif` from src/main.go (lines 305-336): same shape, but the
alias is `modelAliasMap[model]` with no fallback — an absent key gives
the empty string, which `filepath.Join` then drops. -/
def readExifV1 (exifOf : String → Option ExifRecord) (file : String) : String :=
  match exifOf file with
  | none => ""
  | some x =>
    match x.model with
    | none => ""
    | some m0 =>
      let model := trimQuotes m0
      let modelAlias := match modelAliasMap model with
        | some a => a
        | none => ""
      match x.dateTimeOriginal with
      | none => ""
      | some t0 =>
        let tm := (parseTime layout (trimQuotes t0)).getD zeroTime
        filepathJoin [modelAlias, pad4 tm.year, pad2 tm.month, baseName file]

/-- The eight literal characters of the export prefix followed by the
captured digits: the shape of a `mmexport(1\d{9})` match. -/
def wxChars (ds : List Char) : List Char :=
  'm' :: 'm' :: 'e' :: 'x' :: 'p' :: 'o' :: 'r' :: 't' :: ds

/-- Try the pattern `mmexport(1\d{9})` at the head of `s`; on success
return the ten captured digit characters. -/
def wxAt (s : List Char) : Option (List Char) :=
  match s with
  | 'm' :: 'm' :: 'e' :: 'x' :: 'p' :: 'o' :: 'r' :: 't' :: d0 :: rest =>
      if d0 = '1' ∧ (rest.take 9).length = 9 ∧ (rest.take 9).all isDigitChar then
        some (d0 :: rest.take 9)
      else none
  | _ => none

/-- Leftmost match of `mmexport(1\d{9})` (Go
`regexp.FindStringSubmatch` scans positions left to right). -/
def findWx : List Char → Option (List Char)
  | [] => none
  | c :: rest =>
    match wxAt (c :: rest) with
    | some ds => some ds
    | none => findWx rest

/-- Go `strconv.ParseInt(s, 10, 64)` on a plain digit string: the value
when it fits in int64, else an error. -/
def parseIntDigits (ds : List Char) : Option Int :=
  if ¬ ds = [] ∧ ds.all isDigitChar ∧ digitsToNat ds < 2 ^ 63 then
    some (digitsToNat ds)
  else none

/-- `matchWxExport` (src/unnamed/part_000 lines 425-448, src/main.go
lines 343-362): find `mmexport(1\d{9})` anywhere in the filename, parse
the digits as a Unix epoch second count, convert to local time
(`off ts` = the zone's offset at that instant) and build
year/month/basename. -/
def matchWxExport (off : Int → Int) (filename : String) : String :=
  match findWx filename.data with
  | none => ""
  | some ds =>
    match parseIntDigits ds with
    | none => ""
    | some ts =>
      let tt := unixToDateTime (off ts) ts
      filepathJoin [pad4 tt.year, pad2 tt.month, baseName filename]

/-- One token of a fixed-length regex pattern: a run of `\d{n}` or a
literal character. -/
inductive RTok
  | digits : Nat → RTok
  | lit : Char → RTok

/-- Match a fixed-length token pattern at the head of `s`, returning
the matched characters. -/
def matchToks : List RTok → List Char → Option (List Char)
  | [], _ => some []
  | RTok.digits n :: ts, s =>
      if (s.take n).length = n ∧ (s.take n).all isDigitChar then
        (matchToks ts (s.drop n)).map (fun m => s.take n ++ m)
      else none
  | RTok.lit c :: ts, s =>
      match s with
      | c2 :: s2 => if c = c2 then (matchToks ts s2).map (fun m => c :: m) else none
      | [] => none

/-- Leftmost match of a fixed-length pattern (Go `FindStringSubmatch`). -/
def findToks (p : List RTok) : List Char → Option (List Char)
  | [] => matchToks p []
  | c :: rest =>
    match matchToks p (c :: rest) with
    | some m => some m
    | none => findToks p rest

/-- The pattern `\d{8}_\d{6}` of the `regexTime` map. -/
def pat1 : List RTok := [.digits 8, .lit '_', .digits 6]

/-- The layout paired with `pat1`. -/
def lay1 : String := "20060102_150405"

/-- The pattern `\d{4}-\d{2}-\d{2} \d{2}\.\d{2}\.\d{2}` of `regexTime`. -/
def pat2 : List RTok :=
  [.digits 4, .lit '-', .digits 2, .lit '-', .digits 2, .lit ' ',
   .digits 2, .lit '.', .digits 2, .lit '.', .digits 2]

/-- The layout paired with `pat2`. -/
def lay2 : String := "2006-01-02 15.04.05"

/-- The entries of the `regexTime` map, in declaration order. The Go
source iterates this **map** in an unspecified order, so `matchRegex`
below takes the iteration order as an input; the two possible orders of
this two-entry map are `regexTimeList` and `regexTimeList.reverse`. -/
def regexTimeList : List (List RTok × String) := [(pat1, lay1), (pat2, lay2)]

/-- `matchRegex` (src/unnamed/part_000 lines 450-464, src/main.go lines
364-387): try each pattern in the given iteration order; on the first
match, parse the matched substring with the paired layout **ignoring
the parse error** (zero time on failure) and build year/month/basename. -/
def matchRegex (order : List (List RTok × String)) (file : String) : String :=
  match order with
  | [] => ""
  | (p, lay) :: rest =>
    match findToks p file.data with
    | some m =>
      let t := (parseTime lay (String.mk m)).getD zeroTime
      filepathJoin [pad4 t.year, pad2 t.month, baseName file]
    | none => matchRegex rest file

/-- The run configuration (`Config`, src/unnamed/part_000 lines 61-72),
fixed for a whole run. -/
structure Config where
  source : String
  destination : String
  dry : Bool
  rename : Bool
  noSkip : Bool
  overWrite : Bool
  yes : Bool
  together : Bool
  mode : String

/-- The program's effectful surroundings, as explicit inputs:
EXIF data per path, the configured alias map, the local zone offset per
instant, the `regexTime` iteration order, destination existence, the
current wall clock, stdin confirmations, and the outcomes of mkdir /
copy / rename syscalls (`none` = success). -/
structure Env where
  exifOf : String → Option ExifRecord
  modelMap : String → Option String
  tzOff : Int → Int
  regexOrder : List (List RTok × String)
  fileExists : String → Bool
  now : DateTime
  cfg : Config
  confirm : String → Bool
  mkdirResult : String → Option String
  copyResult : String → String → Option String
  moveResult : String → String → Option String

/-- `processImage` (src/unnamed/part_000 lines 360-381, src/main.go
lines 286-303): try EXIF, then the export pattern, then the regex
table; first non-empty path wins; if all three are empty return
("", error). -/
def processImage (env : Env) (file : String) : String × Option String :=
  let newPath := readExif env.exifOf env.modelMap file
  if ¬ newPath = "" then (newPath, none)
  else
    let newPath := matchWxExport env.tzOff file
    if ¬ newPath = "" then (newPath, none)
    else
      let newPath := matchRegex env.regexOrder file
      if ¬ newPath = "" then (newPath, none)
      else ("", some ("failed to generate new file name for " ++ file))

/-- `generateNewFileName` from src/main.go (lines 280-284):
stem + "_new_" + current timestamp + `filepath.Ext` of the name. -/
def generateNewFileName (now : DateTime) (filename : String) : String :=
  let ext := filepathExt filename
  let name := trimSuffix filename ext
  name ++ "_new_" ++ format14 now ++ ext

/-- `generateNewFileName` from src/unnamed/part_000 (lines 352-358):
like the src/main.go version but the extension is **lower-cased**
(`getFileExtension(filename, true)`) before being stripped and
re-appended. -/
def generateNewFileName2 (now : DateTime) (filename : String) : String :=
  let fileExtension := getFileExtension filename true
  let fileNameWithoutExtension := trimSuffix filename fileExtension
  fileNameWithoutExtension ++ "_new_" ++ format14 now ++ fileExtension

/-- `checkExist` (src/unnamed/part_000 lines 315-326, src/main.go lines
245-256): if the candidate exists — overwrite keeps it, otherwise
no-skip unset is a skip error, otherwise rename with a timestamp
suffix; a non-existing candidate passes through unchanged. -/
def checkExist (env : Env) (dest : String) : String × Option String :=
  if env.fileExists dest then
    if env.cfg.overWrite then (dest, none)
    else if ¬ env.cfg.noSkip then ("", some ("skip file " ++ dest))
    else (generateNewFileName2 env.now dest, none)
  else (dest, none)

/-- `createDestinationFile` (src/unnamed/part_000 lines 328-334):
ensure the parent directory chain exists. -/
def createDestinationFile (env : Env) (dst : String) : String × Option String :=
  match env.mkdirResult (dirName dst) with
  | some e => ("", some e)
  | none => (dst, none)

/-- `processOneFile` (src/unnamed/part_000 lines 293-313): create the
parent directory, then copy or move according to the mode (any other
mode does nothing and succeeds). -/
def processOneFileM (env : Env) (source dest : String) : Option String :=
  match createDestinationFile env dest with
  | (_, some e) => some e
  | (d, none) =>
    if env.cfg.mode = "copy" then env.copyResult source d
    else if env.cfg.mode = "move" then env.moveResult source d
    else none

/-- `processFiles` (src/unnamed/part_000 lines 283-291): transfer every
planned pair, logging failures and continuing; returns the log lines. -/
def processFilesM (env : Env) : List (String × String) → List String
  | [] => []
  | (s, d) :: rest =>
    match processOneFileM env s d with
    | some e => ("error processing " ++ s ++ ": " ++ e) :: processFilesM env rest
    | none => processFilesM env rest

/-- Driver loop state: the accumulated `todoMap` (batch mode) and the
log lines emitted so far. -/
structure LoopState where
  todo : List (String × String)
  logs : List String

/-- One iteration of the `mediaTool` file loop (src/unnamed/part_000
lines 219-246): a `processImage` or `checkExist` error skips the file
(`continue`, no log in this revision); otherwise the destination root
is joined on, and the pair is either queued (batch mode) or, after the
optional prompt, transferred at once — a transfer error also just moves
to the next file. -/
def mediaToolStep (env : Env) (st : LoopState) (file : String) : LoopState :=
  match processImage env file with
  | (_, some _) => st
  | (newPath, none) =>
    match checkExist env newPath with
    | (_, some _) => st
    | (np2, none) =>
      let np3 := if ¬ np2 = "" then filepathJoin [env.cfg.destination, np2] else np2
      if env.cfg.together then { st with todo := st.todo ++ [(file, np3)] }
      else if ¬ env.cfg.yes && ¬ env.confirm file then st
      else
        match processOneFileM env file np3 with
        | some _ => st
        | none => st

/-- `mediaTool` after the directory walk succeeded (src/unnamed/part_000
lines 211-261): fold the loop over the file list; in batch mode ask one
aggregate confirmation and run `processFiles`; always return nil. -/
def mediaTool (env : Env) (files : List String) : Option String × LoopState :=
  let st := files.foldl (mediaToolStep env) ⟨[], []⟩
  if env.cfg.together then
    if ¬ env.cfg.yes && ¬ env.confirm "all" then (none, st)
    else (none, { st with logs := st.logs ++ processFilesM env st.todo })
  else (none, st)

/-- Specification-side helper: the first non-empty string of a list
("first strategy success wins"). -/
def firstNonEmpty : List String → String
  | [] => ""
  | s :: rest => if ¬ s = "" then s else firstNonEmpty rest

/-- Specification-side helper: the final destination the driver stores
for a file that resolved without error. -/
def finalDest (env : Env) (f : String) : String :=
  let p := (checkExist env (processImage env f).1).1
  if ¬ p = "" then filepathJoin [env.cfg.destination, p] else p

/-- Specification-side helper: the transfer plan the driver builds — in
batch mode, exactly the files whose resolution and conflict check both
succeeded, paired with their final destinations. -/
def planOf (env : Env) : List String → List (String × String)
  | [] => []
  | f :: rest =>
    (if env.cfg.together
        && ((processImage env f).2.isNone && (checkExist env (processImage env f).1).2.isNone)
     then [(f, finalDest env f)] else [])
      ++ planOf env rest

/-! ### Helper lemmas -/

theorem eq_empty_of_data (a : String) (h : a.data = []) : a = "" := by
  cases a
  cases h
  rfl

theorem mk_ne_empty (l : List Char) (h : ¬ l = []) : ¬ String.mk l = "" := by
  intro he
  exact h (congrArg String.data he)

theorem append_ne_empty_left (a b : String) (ha : ¬ a = "") : ¬ a ++ b = "" := by
  intro h
  have hd : a.data ++ b.data = [] := by
    rw [← String.data_append, h]
  exact ha (eq_empty_of_data a (List.append_eq_nil.mp hd).1)

theorem string_length_append (a b : String) : (a ++ b).length = a.length + b.length := by
  show (a ++ b).data.length = a.data.length + b.data.length
  rw [String.data_append, List.length_append]

theorem natDigits_ne_nil (n : Nat) : ¬ natDigits n = [] := by
  rw [natDigits]
  split
  · simp
  · simp

theorem pad2_ne_empty (n : Nat) : ¬ pad2 n = "" := by
  unfold pad2
  split
  · exact mk_ne_empty _ (by simp)
  · exact mk_ne_empty _ (natDigits_ne_nil n)

theorem pad4_ne_empty (n : Nat) : ¬ pad4 n = "" := by
  unfold pad4
  split
  · exact mk_ne_empty _ (by simp)
  · exact mk_ne_empty _ (natDigits_ne_nil n)

theorem pad2_length (n : Nat) (h : n < 100) : (pad2 n).length = 2 := by
  unfold pad2
  rw [if_pos h]
  rfl

theorem pad4_length (n : Nat) (h : n < 10000) : (pad4 n).length = 4 := by
  unfold pad4
  rw [if_pos h]
  rfl

theorem format14_length (t : DateTime) (hy : t.year < 10000) (hmo : t.month < 100)
    (hd : t.day < 100) (hh : t.hour < 100) (hmi : t.minute < 100) (hs : t.second < 100) :
    (format14 t).length = 14 := by
  unfold format14
  rw [string_length_append, string_length_append, string_length_append,
    string_length_append, string_length_append,
    pad4_length _ hy, pad2_length _ hmo, pad2_length _ hd, pad2_length _ hh,
    pad2_length _ hmi, pad2_length _ hs]

theorem filepathJoin3 (a b c : String) (ha : ¬ a = "") (hb : ¬ b = "") (hc : ¬ c = "") :
    filepathJoin [a, b, c] = a ++ "/" ++ (b ++ "/" ++ c) := by
  unfold filepathJoin joinSep
  simp [List.filter, ha, hb, hc, joinSep]

theorem filepathJoin_cons (a : String) (l : List String) (ha : ¬ a = "")
    (hl : ¬ (l.filter (fun s => ¬ s = "")) = []) :
    filepathJoin (a :: l) = a ++ "/" ++ filepathJoin l := by
  unfold filepathJoin
  rw [List.filter_cons]
  simp only [ha, not_false_iff, decide_eq_true_eq, if_pos]
  rcases hf : l.filter (fun s => ¬ s = "") with _ | ⟨x, xs⟩
  · exact absurd hf hl
  · rfl

theorem append_slash_ne (a x : String) : ¬ a ++ "/" ++ x = x := by
  intro h
  have hl := congrArg String.length h
  rw [string_length_append, string_length_append] at hl
  have : ("/" : String).length = 1 := rfl
  omega

theorem dropWhile_head_false {α : Type} (p : α → Bool) (l : List α) (x : α) (xs : List α)
    (h : l.dropWhile p = x :: xs) : p x = false := by
  induction l with
  | nil => cases h
  | cons a t ih =>
    by_cases hp : p a
    · rw [List.dropWhile_cons_of_pos hp] at h
      exact ih h
    · rw [List.dropWhile_cons_of_neg hp] at h
      cases h
      simpa using hp

theorem baseName_ne_empty (s : String) : ¬ baseName s = "" := by
  unfold baseName
  by_cases h0 : s = ""
  · rw [if_pos h0]
    decide
  · rw [if_neg h0]
    simp only
    rcases hr : s.data.reverse.dropWhile (fun c => c == '/') with _ | ⟨x, xs⟩
    · rw [if_pos rfl]
      decide
    · rw [if_neg (by simp)]
      apply mk_ne_empty
      intro hrev
      have htw : ((x :: xs).takeWhile (fun c => !(c == '/'))) = [] := by
        have := congrArg List.reverse hrev
        simpa using this
      have hpx : (x == '/') = false := dropWhile_head_false _ _ x xs hr
      rw [List.takeWhile_cons_of_pos (by simp [hpx])] at htw
      cases htw

theorem mediaTool_fst (env : Env) (files : List String) : (mediaTool env files).1 = none := by
  unfold mediaTool
  split
  · split
    · rfl
    · rfl
  · rfl

theorem string_data_ext (a b : String) (h : a.data = b.data) : a = b := by
  cases a
  cases b
  cases h
  rfl

theorem extRev_append (r : List Char) : ∃ t, extRev r ++ t = r := by
  unfold extRev
  split
  · rename_i tl heq
    refine ⟨tl, ?_⟩
    rw [List.append_assoc]
    simp only [List.singleton_append]
    rw [← heq, List.takeWhile_append_dropWhile]
  · exact ⟨r, by simp⟩

theorem ext_data_suffix (p : String) : ∃ t, t ++ (filepathExt p).data = p.data := by
  obtain ⟨t, ht⟩ := extRev_append p.data.reverse
  refine ⟨t.reverse, ?_⟩
  have hrev := congrArg List.reverse ht
  simp only [List.reverse_append, List.reverse_reverse] at hrev
  exact hrev

theorem trimSuffix_append_of_suffix (s suff : String) (hsuf : ∃ t, t ++ suff.data = s.data) :
    trimSuffix s suff ++ suff = s := by
  obtain ⟨t, ht⟩ := hsuf
  unfold trimSuffix
  rw [if_pos (List.isSuffixOf_iff_suffix.mpr ⟨t, ht⟩)]
  apply string_data_ext
  rw [String.data_append]
  show s.data.take (s.data.length - suff.data.length) ++ suff.data = s.data
  have hlen : s.data.length - suff.data.length = t.length := by
    rw [← ht, List.length_append]
    omega
  rw [hlen, ← ht, List.take_left]

theorem wxAt_shape (s ds : List Char) (h : wxAt s = some ds) :
    ds.length = 10 ∧ ds.head? = some '1' ∧ ds.all isDigitChar = true := by
  unfold wxAt at h
  split at h
  · rename_i d0 rest
    split at h
    · rename_i hc
      obtain ⟨hd0, hlen, hall⟩ := hc
      cases h
      subst hd0
      refine ⟨by simp [hlen], rfl, ?_⟩
      rw [List.all_cons]
      simp [hall]
      decide
    · cases h
  · cases h

theorem findWx_shape (l : List Char) (ds : List Char) (h : findWx l = some ds) :
    ds.length = 10 ∧ ds.head? = some '1' ∧ ds.all isDigitChar = true := by
  induction l with
  | nil => cases h
  | cons c rest ih =>
    unfold findWx at h
    split at h
    · rename_i hw
      cases h
      exact wxAt_shape _ _ hw
    · exact ih h

theorem findWx_cons (c : Char) (rest : List Char) :
    findWx (c :: rest) = match wxAt (c :: rest) with
      | some ds => some ds
      | none => findWx rest := rfl

theorem findWx_of_contains (pre ds post : List Char) (h10 : ds.length = 10)
    (h1 : ds.head? = some '1') (hd : ds.all isDigitChar = true) :
    (findWx (pre ++ (wxChars ds ++ post))).isSome = true := by
  induction pre with
  | nil =>
    rcases ds with _ | ⟨d0, rest⟩
    · cases h10
    · have hd0 : d0 = '1' := by simpa using h1
      have hrest : rest.length = 9 := by simpa using h10
      have hallrest : rest.all isDigitChar = true := by
        rw [List.all_cons, Bool.and_eq_true] at hd
        exact hd.2
      have htake : (rest ++ post).take 9 = rest := by
        rw [← hrest, List.take_left]
      have hwx : wxAt ('m' :: 'm' :: 'e' :: 'x' :: 'p' :: 'o' :: 'r' :: 't' :: d0 ::
          (rest ++ post)) = some (d0 :: (rest ++ post).take 9) := by
        show (if d0 = '1' ∧ ((rest ++ post).take 9).length = 9
              ∧ ((rest ++ post).take 9).all isDigitChar = true
            then some (d0 :: (rest ++ post).take 9) else none)
          = some (d0 :: (rest ++ post).take 9)
        rw [if_pos]
        exact ⟨hd0, by rw [htake, hrest], by rw [htake]; exact hallrest⟩
      simp only [List.nil_append, wxChars, List.cons_append]
      rw [findWx_cons, hwx]
      rfl
  | cons c pre2 ih =>
    simp only [List.cons_append]
    rw [findWx_cons]
    split
    · simp
    · simp only [List.cons_append] at ih
      exact ih

theorem digit_le (c : Char) (hc : isDigitChar c = true) : c.toNat - 48 ≤ 9 := by
  unfold isDigitChar at hc
  rw [Bool.and_eq_true, decide_eq_true_eq, decide_eq_true_eq] at hc
  omega

theorem digitsToNat_aux_lt (ds : List Char) : ∀ acc : Nat, ds.all isDigitChar = true →
    ds.foldl (fun a c => a * 10 + (c.toNat - 48)) acc < (acc + 1) * 10 ^ ds.length := by
  induction ds with
  | nil =>
    intro acc _
    simp only [List.foldl_nil, List.length_nil, pow_zero, mul_one]
    exact Nat.lt_succ_self acc
  | cons c tl ih =>
    intro acc hall
    rw [List.all_cons, Bool.and_eq_true] at hall
    have h9 := digit_le c hall.1
    rw [List.foldl_cons]
    calc tl.foldl (fun a c => a * 10 + (c.toNat - 48)) (acc * 10 + (c.toNat - 48))
        < (acc * 10 + (c.toNat - 48) + 1) * 10 ^ tl.length := ih _ hall.2
      _ ≤ ((acc + 1) * 10) * 10 ^ tl.length := by
          apply Nat.mul_le_mul_right
          omega
      _ = (acc + 1) * 10 ^ (c :: tl).length := by
          rw [List.length_cons, Nat.pow_succ]
          ring

theorem digitsToNat_lt (ds : List Char) (hd : ds.all isDigitChar = true) :
    digitsToNat ds < 10 ^ ds.length := by
  have := digitsToNat_aux_lt ds 0 hd
  simpa [digitsToNat] using this

theorem parseIntDigits_of_ten (ds : List Char) (h10 : ds.length = 10)
    (hd : ds.all isDigitChar = true) : parseIntDigits ds = some ((digitsToNat ds : Nat) : Int) := by
  unfold parseIntDigits
  rw [if_pos]
  refine ⟨?_, hd, ?_⟩
  · intro hnil
    rw [hnil] at h10
    cases h10
  · calc digitsToNat ds < 10 ^ ds.length := digitsToNat_lt ds hd
      _ = 10 ^ 10 := by rw [h10]
      _ < 2 ^ 63 := by norm_num

theorem step_todo (env : Env) (st : LoopState) (f : String) :
    (mediaToolStep env st f).todo =
      st.todo ++ (if env.cfg.together
          && ((processImage env f).2.isNone && (checkExist env (processImage env f).1).2.isNone)
        then [(f, finalDest env f)] else []) := by
  rcases h1 : processImage env f with ⟨p, e⟩
  rcases e with _ | err
  · rcases h2 : checkExist env p with ⟨q, e2⟩
    rcases e2 with _ | err2
    · simp only [mediaToolStep, finalDest, h1, h2, Option.isNone_none, Bool.and_true]
      by_cases ht : env.cfg.together
      · simp [ht]
      · have ht2 : env.cfg.together = false := by simpa using ht
        simp only [ht2, Bool.false_and, Bool.false_eq_true, if_false, List.append_nil]
        split
        · rfl
        · split <;> rfl
    · simp [mediaToolStep, h1, h2]
  · simp [mediaToolStep, h1]

theorem loop_todo (env : Env) (files : List String) : ∀ st : LoopState,
    (files.foldl (mediaToolStep env) st).todo = st.todo ++ planOf env files := by
  induction files with
  | nil =>
    intro st
    simp [planOf]
  | cons f rest ih =>
    intro st
    rw [List.foldl_cons, ih, step_todo]
    rw [planOf, List.append_assoc]

theorem mediaTool_todo (env : Env) (files : List String) :
    (mediaTool env files).2.todo = planOf env files := by
  unfold mediaTool
  have h := loop_todo env files ⟨[], []⟩
  split
  · split
    · simpa using h
    · simpa using h
  · simpa using h

theorem not_in_plan (env : Env) (f : String)
    (hf : (processImage env f).2.isSome = true
      ∨ (checkExist env (processImage env f).1).2.isSome = true) :
    ∀ files : List String, ¬ f ∈ (planOf env files).map Prod.fst := by
  intro files
  induction files with
  | nil => simp [planOf]
  | cons g rest ih =>
    rw [planOf]
    rw [List.map_append, List.mem_append]
    rintro (h | h)
    · split at h
      · rename_i hok
        rw [Bool.and_eq_true, Bool.and_eq_true] at hok
        simp only [List.map_cons, List.map_nil, List.mem_singleton] at h
        subst h
        rcases hf with hf | hf
        · rw [Option.isSome_iff_ne_none] at hf
          rw [Option.isNone_iff_eq_none] at hok
          exact hf hok.2.1
        · rw [Option.isSome_iff_ne_none] at hf
          have := hok.2.2
          rw [Option.isNone_iff_eq_none] at this
          exact hf this
      · simp at h
    · exact ih h

theorem join3_explicit (b : String) (hb : ¬ b = "") :
    filepathJoin ["0001", "01", b] = "0001/01/" ++ b := by
  rw [filepathJoin3 _ _ _ (by decide) (by decide) hb]
  apply string_data_ext
  rw [String.data_append, String.data_append, String.data_append, String.data_append]
  rw [← List.append_assoc]
  congr 1

theorem matchRegex_cons (p : List RTok) (lay : String) (rest : List (List RTok × String))
    (f : String) :
    matchRegex ((p, lay) :: rest) f = match findToks p f.data with
      | some m => filepathJoin [pad4 ((parseTime lay (String.mk m)).getD zeroTime).year,
          pad2 ((parseTime lay (String.mk m)).getD zeroTime).month, baseName f]
      | none => matchRegex rest f := rfl

theorem matchRegex_nil (f : String) : matchRegex [] f = "" := rfl

/-- A concrete environment for the witness theorems: no EXIF data, an
empty alias map, a UTC+8 zone, declaration-order pattern iteration, no
existing destinations, confirmations accepted, all transfers succeed. -/
def env0 : Env where
  exifOf := fun _ => none
  modelMap := fun _ => none
  tzOff := fun _ => 28800
  regexOrder := regexTimeList
  fileExists := fun _ => false
  now := ⟨2023, 4, 5, 10, 20, 30⟩
  cfg := { source := "src", destination := "photos", dry := false, rename := false,
           noSkip := false, overWrite := false, yes := true, together := true, mode := "copy" }
  confirm := fun _ => true
  mkdirResult := fun _ => none
  copyResult := fun _ _ => none
  moveResult := fun _ _ => none

theorem splitSlash_single (xs : List Char) (h : xs.all (fun c => !(c == '/')) = true) :
    splitSlash xs = [xs] := by
  induction xs with
  | nil => rfl
  | cons c rest ih =>
    rw [List.all_cons, Bool.and_eq_true] at h
    have hc : ¬ c = '/' := by simpa using h.1
    rw [splitSlash, if_neg hc, ih h.2]

theorem splitSlash_sep (xs ys : List Char) (h : xs.all (fun c => !(c == '/')) = true) :
    splitSlash (xs ++ '/' :: ys) = xs :: splitSlash ys := by
  induction xs with
  | nil =>
    simp only [List.nil_append]
    rw [splitSlash, if_pos rfl]
  | cons c rest ih =>
    rw [List.all_cons, Bool.and_eq_true] at h
    have hc : ¬ c = '/' := by simpa using h.1
    simp only [List.cons_append]
    rw [splitSlash, if_neg hc, ih h.2]

theorem joinSep_data_cons (a b : String) (r : List String) :
    (joinSep (a :: b :: r)).data = a.data ++ '/' :: (joinSep (b :: r)).data := by
  show (a ++ "/" ++ joinSep (b :: r)).data = _
  rw [String.data_append, String.data_append, List.append_assoc]
  rfl

theorem splitSlash_joinSep (parts : List String)
    (hplain : ∀ s ∈ parts, s.data.all (fun c => !(c == '/')) = true) :
    ¬ parts = [] → splitSlash ((joinSep parts).data) = parts.map String.data := by
  induction parts with
  | nil => intro hne; exact absurd rfl hne
  | cons a rest ih =>
    intro _
    rcases rest with _ | ⟨b, r⟩
    · show splitSlash a.data = [a.data]
      exact splitSlash_single a.data (hplain a (by simp))
    · rw [joinSep_data_cons, splitSlash_sep _ _ (hplain a (by simp))]
      rw [ih (fun s hs => hplain s (List.mem_cons_of_mem _ hs)) (by simp)]
      rfl

theorem cleanStack_cons (rooted : Bool) (e : List Char) (rest stack : List (List Char)) :
    cleanStack rooted (e :: rest) stack =
      if e = [] ∨ e = ['.'] then cleanStack rooted rest stack
      else if e = ['.', '.'] then
        match stack with
        | [] => if rooted then cleanStack rooted rest [] else cleanStack rooted rest [['.', '.']]
        | top :: stk2 =>
          if top = ['.', '.'] then cleanStack rooted rest (['.', '.'] :: top :: stk2)
          else cleanStack rooted rest stk2
      else cleanStack rooted rest (e :: stack) := rfl

theorem cleanStack_plain (rooted : Bool) (elems : List (List Char)) : ∀ stack,
    (∀ e ∈ elems, ¬ e = [] ∧ ¬ e = ['.'] ∧ ¬ e = ['.', '.']) →
    cleanStack rooted elems stack = stack.reverse ++ elems := by
  induction elems with
  | nil =>
    intro stack _
    simp [cleanStack]
  | cons e rest ih =>
    intro stack h
    obtain ⟨h1, h2, h3⟩ := h e (by simp)
    rw [cleanStack_cons, if_neg (fun hor => hor.elim h1 h2), if_neg h3]
    rw [ih (e :: stack) (fun x hx => h x (List.mem_cons_of_mem _ hx))]
    simp

theorem joinSepL_map (parts : List String) :
    joinSepL (parts.map String.data) = (joinSep parts).data := by
  induction parts with
  | nil => rfl
  | cons a rest ih =>
    rcases rest with _ | ⟨b, r⟩
    · rfl
    · show a.data ++ '/' :: joinSepL ((b :: r).map String.data) = _
      rw [ih, joinSep_data_cons]

theorem cleanComponent_spec (s : String) (h : cleanComponent s = true) :
    ¬ s = "" ∧ ¬ s.data = [] ∧ ¬ s.data = ['.'] ∧ ¬ s.data = ['.', '.']
    ∧ s.data.all (fun c => !(c == '/')) = true := by
  unfold cleanComponent at h
  rw [Bool.and_eq_true, Bool.and_eq_true, Bool.and_eq_true] at h
  obtain ⟨⟨⟨hne, hdot⟩, hdd⟩, hsl⟩ := h
  have hne2 : ¬ s = "" := by simpa using hne
  have hdot2 : ¬ s = "." := by simpa using hdot
  have hdd2 : ¬ s = ".." := by simpa using hdd
  refine ⟨hne2, ?_, ?_, ?_, hsl⟩
  · intro hd
    exact hne2 (string_data_ext s "" hd)
  · intro hd
    exact hdot2 (string_data_ext s "." hd)
  · intro hd
    exact hdd2 (string_data_ext s ".." hd)

theorem filepathClean_of_plain (parts : List String)
    (h : ∀ s ∈ parts, cleanComponent s = true) (hne : ¬ parts = []) :
    filepathClean (joinSep parts) = joinSep parts := by
  rcases parts with _ | ⟨a, rest⟩
  · exact absurd rfl hne
  obtain ⟨ha_ne, ha_data, -, -, ha_sl⟩ := cleanComponent_spec a (h a (by simp))
  have hpne : ¬ joinSep (a :: rest) = "" := by
    rcases rest with _ | ⟨b, r⟩
    · exact ha_ne
    · exact append_ne_empty_left _ _ (append_ne_empty_left _ _ ha_ne)
  obtain ⟨c, cs, hc⟩ : ∃ c cs, a.data = c :: cs := by
    rcases hd : a.data with _ | ⟨c, cs⟩
    · exact absurd hd ha_data
    · exact ⟨c, cs, rfl⟩
  have hcslash : ¬ c = '/' := by
    have hall := ha_sl
    rw [hc, List.all_cons, Bool.and_eq_true] at hall
    simpa using hall.1
  have hjh : (joinSep (a :: rest)).data.head? = some c := by
    rcases rest with _ | ⟨b, r⟩
    · show a.data.head? = some c
      rw [hc]
      rfl
    · rw [joinSep_data_cons, hc]
      rfl
  have hrooted : ¬ ((joinSep (a :: rest)).data.head? == some '/') = true := by
    rw [hjh]
    simpa using hcslash
  have hsplit : splitSlash ((joinSep (a :: rest)).data) = (a :: rest).map String.data :=
    splitSlash_joinSep (a :: rest) (fun s hs => (cleanComponent_spec s (h s hs)).2.2.2.2)
      (by simp)
  have hstack : cleanStack false (splitSlash ((joinSep (a :: rest)).data)) []
      = (a :: rest).map String.data := by
    rw [hsplit, cleanStack_plain false _ []]
    · simp
    · intro e he
      obtain ⟨s, hs, rfl⟩ := List.mem_map.mp he
      obtain ⟨-, h1, h2, h3, -⟩ := cleanComponent_spec s (h s hs)
      exact ⟨h1, h2, h3⟩
  unfold filepathClean
  rw [if_neg hpne, if_neg hrooted, if_neg (by rw [hstack]; simp), hstack, joinSepL_map]

theorem isDigitChar_digitChar (k : Nat) : isDigitChar (digitChar k) = true := by
  unfold digitChar
  have h : k % 10 < 10 := Nat.mod_lt _ (by omega)
  revert h
  generalize k % 10 = d
  intro h
  interval_cases d <;> decide

theorem natDigits_all (n : Nat) : (natDigits n).all isDigitChar = true := by
  induction n using Nat.strong_induction_on with
  | _ n ih =>
    rw [natDigits]
    split
    · simp [isDigitChar_digitChar]
    · rename_i hn
      rw [List.all_append, ih (n / 10) (Nat.div_lt_self (by omega) (by omega))]
      simp [isDigitChar_digitChar]

theorem pad2_all (n : Nat) : (pad2 n).data.all isDigitChar = true := by
  unfold pad2
  split
  · simp [isDigitChar_digitChar]
  · exact natDigits_all n

theorem pad4_all (n : Nat) : (pad4 n).data.all isDigitChar = true := by
  unfold pad4
  split
  · simp [isDigitChar_digitChar]
  · exact natDigits_all n

theorem cleanComponent_of_digits (s : String) (hne : ¬ s = "")
    (hd : s.data.all isDigitChar = true) : cleanComponent s = true := by
  have hsl : s.data.all (fun c => !(c == '/')) = true := by
    rw [List.all_eq_true] at hd ⊢
    intro c hcmem
    have h1 := hd c hcmem
    rcases hb : (c == '/') with _ | _
    · simp
    · have hceq : c = '/' := by simpa using hb
      rw [hceq] at h1
      exact absurd h1 (by decide)
  have hdot : ¬ s = "." := by
    intro he
    rw [he] at hd
    exact absurd hd (by decide)
  have hdd : ¬ s = ".." := by
    intro he
    rw [he] at hd
    exact absurd hd (by decide)
  unfold cleanComponent
  rw [Bool.and_eq_true, Bool.and_eq_true, Bool.and_eq_true]
  refine ⟨⟨⟨?_, ?_⟩, ?_⟩, hsl⟩
  · simpa using hne
  · simpa using hdot
  · simpa using hdd

theorem cleanComponent_pad4 (n : Nat) : cleanComponent (pad4 n) = true :=
  cleanComponent_of_digits _ (pad4_ne_empty n) (pad4_all n)

theorem cleanComponent_pad2 (n : Nat) : cleanComponent (pad2 n) = true :=
  cleanComponent_of_digits _ (pad2_ne_empty n) (pad2_all n)

/-! ### Claim theorems -/

/-- C1: for every input path, `processImage` tries the strategies in
strict priority order — EXIF metadata, then the mmexport (Strategy A)
match, then the configured regex/layout (Strategy B) match — with the
first non-empty result winning; it returns a non-nil error (the
unresolved-path error) exactly when all three strategies return the
empty string, and then the returned path is empty; and the batch driver
`mediaTool` returns nil regardless, so this error never aborts the
batch. -/
theorem c1_priority_order (env : Env) (f : String) :
    processImage env f
      = (firstNonEmpty [readExif env.exifOf env.modelMap f, matchWxExport env.tzOff f,
          matchRegex env.regexOrder f],
         if readExif env.exifOf env.modelMap f = "" ∧ matchWxExport env.tzOff f = ""
            ∧ matchRegex env.regexOrder f = ""
         then some ("failed to generate new file name for " ++ f) else none)
    ∧ ∀ files : List String, (mediaTool env files).1 = none := by
  constructor
  · by_cases h1 : readExif env.exifOf env.modelMap f = ""
    · by_cases h2 : matchWxExport env.tzOff f = ""
      · by_cases h3 : matchRegex env.regexOrder f = ""
        · simp [processImage, firstNonEmpty, h1, h2, h3]
        · simp [processImage, firstNonEmpty, h1, h2, h3]
      · simp [processImage, firstNonEmpty, h1, h2]
    · simp [processImage, firstNonEmpty, h1]
  · intro files
    exact mediaTool_fst env files

/-- C10: `processImage`'s error signal and its path result are mutually
exclusive and exhaustive: it returns a non-nil error iff the returned
destination path is the empty string; in particular it never returns
both a non-empty path and an error. -/
theorem c10_error_iff_empty_path (env : Env) (f : String) :
    ((processImage env f).2.isSome = true ↔ (processImage env f).1 = "")
    ∧ ¬ (¬ (processImage env f).1 = "" ∧ (processImage env f).2.isSome = true) := by
  have hmain : (processImage env f).2.isSome = true ↔ (processImage env f).1 = "" := by
    by_cases h1 : readExif env.exifOf env.modelMap f = ""
    · by_cases h2 : matchWxExport env.tzOff f = ""
      · by_cases h3 : matchRegex env.regexOrder f = ""
        · simp [processImage, h1, h2, h3]
        · simp [processImage, h1, h2, h3]
      · simp [processImage, h1, h2]
    · simp [processImage, h1]
  exact ⟨hmain, fun h => h.1 (hmain.mp h.2)⟩

/-- C2: the `checkExist` conflict matrix — a non-existing candidate
passes through unchanged whatever the flags; an existing candidate with
the overwrite flag passes through unchanged; an existing candidate with
neither overwrite nor no-skip yields the skip error; and the driver
treats that as a per-file failure, returning nil for the whole batch. -/
theorem c2_conflict_matrix (env : Env) (dest : String) :
    checkExist { env with fileExists := fun _ => false } dest = (dest, none)
    ∧ checkExist
        { env with fileExists := (fun _ => true), cfg := { env.cfg with overWrite := true } }
        dest = (dest, none)
    ∧ checkExist
        { env with fileExists := (fun _ => true),
                   cfg := { env.cfg with overWrite := false, noSkip := false } }
        dest = ("", some ("skip file " ++ dest))
    ∧ ∀ files : List String, (mediaTool env files).1 = none :=
  ⟨rfl, rfl, rfl, fun files => mediaTool_fst env files⟩

/-- C9: the batch driver returns nil for every file list and every
environment (hence for every combination of per-file failures,
including transfer I/O errors); the transfer plan it builds is exactly
the filter-map of the successfully resolved files; and a file whose
resolution or conflict check fails is not in the plan. -/
theorem c9_batch_continues (env : Env) (files : List String) (f : String)
    (hf : (processImage env f).2.isSome = true
      ∨ (checkExist env (processImage env f).1).2.isSome = true) :
    (mediaTool env files).1 = none
    ∧ (mediaTool env files).2.todo = planOf env files
    ∧ ¬ f ∈ (planOf env files).map Prod.fst :=
  ⟨mediaTool_fst env files, mediaTool_todo env files, not_in_plan env f hf files⟩

/-- C9 witness: a concrete batch containing a file no strategy can
resolve ("a.txt" has no EXIF record, export code or timestamp): the run
returns nil, the plan matches the characterization, the file is not
planned. -/
theorem c9_batch_continues_witness :
    (mediaTool env0 ["a.txt"]).1 = none
    ∧ (mediaTool env0 ["a.txt"]).2.todo = planOf env0 ["a.txt"]
    ∧ ¬ "a.txt" ∈ (planOf env0 ["a.txt"]).map Prod.fst :=
  c9_batch_continues env0 ["a.txt"] "a.txt" (Or.inl (by decide))

/-- C3 counterexample: in the src/main.go revision the alias lookup has
no fallback — for a file with valid EXIF whose device id ("FooCam") is
absent from the hard-coded alias map, the alias segment is empty and
the resolved path collapses to year/month/basename, not to the raw id. -/
theorem c3_counterexample :
    modelAliasMap "FooCam" = none
    ∧ readExifV1 (fun _ => some ⟨some "FooCam", some "2023:04:05 10:20:30"⟩) "x.jpg"
        = "2023/04/x.jpg"
    ∧ ¬ readExifV1 (fun _ => some ⟨some "FooCam", some "2023:04:05 10:20:30"⟩) "x.jpg"
        = "FooCam/2023/04/x.jpg" := by
  refine ⟨rfl, by decide, by decide⟩

/-- C3 amended: in the src/unnamed/part_000 revision (configured alias
map), for valid EXIF whose quote-trimmed device id is a single clean
path element (non-empty, not "." or "..", separator-free - ids that
`filepath.Clean` would rewrite, such as ".", are excluded, as are
basenames Clean rewrites) and absent from the alias map, `readExif`
uses the raw id verbatim as the leading alias segment, the result never
collapses to the alias-free year/month/basename path, and Go's path
cleaning - which the real `filepath.Join` applies and the simplified
`filepathJoin` omits - is the identity on the result, so the modelled
path is exactly the program's. In the src/main.go revision the alias
lookup has no fallback and the path does collapse (counterexample). -/
theorem c3_alias_fallback (exifOf : String → Option ExifRecord)
    (modelMap : String → Option String) (f m ts : String) (r : ExifRecord)
    (h1 : exifOf f = some r) (h2 : r.model = some m) (h3 : r.dateTimeOriginal = some ts)
    (h4 : modelMap (trimQuotes m) = none)
    (h5 : cleanComponent (trimQuotes m) = true)
    (h6 : cleanComponent (baseName f) = true) :
    readExif exifOf modelMap f
      = trimQuotes m ++ "/"
        ++ filepathJoin [pad4 ((parseTime layout (trimQuotes ts)).getD zeroTime).year,
             pad2 ((parseTime layout (trimQuotes ts)).getD zeroTime).month, baseName f]
    ∧ ¬ readExif exifOf modelMap f
        = filepathJoin [pad4 ((parseTime layout (trimQuotes ts)).getD zeroTime).year,
            pad2 ((parseTime layout (trimQuotes ts)).getD zeroTime).month, baseName f]
    ∧ filepathClean (readExif exifOf modelMap f) = readExif exifOf modelMap f := by
  have h5ne : ¬ trimQuotes m = "" := (cleanComponent_spec _ h5).1
  have hjoin : readExif exifOf modelMap f
      = filepathJoin [trimQuotes m,
          pad4 ((parseTime layout (trimQuotes ts)).getD zeroTime).year,
          pad2 ((parseTime layout (trimQuotes ts)).getD zeroTime).month, baseName f] := by
    unfold readExif
    rw [h1]
    simp [h2, h3, h4]
  have hcons : filepathJoin [trimQuotes m,
        pad4 ((parseTime layout (trimQuotes ts)).getD zeroTime).year,
        pad2 ((parseTime layout (trimQuotes ts)).getD zeroTime).month, baseName f]
      = trimQuotes m ++ "/"
        ++ filepathJoin [pad4 ((parseTime layout (trimQuotes ts)).getD zeroTime).year,
            pad2 ((parseTime layout (trimQuotes ts)).getD zeroTime).month, baseName f] := by
    apply filepathJoin_cons _ _ h5ne
    intro hnil
    rw [List.filter_cons, if_pos] at hnil
    · cases hnil
    · simp only [decide_eq_true_eq]
      exact pad4_ne_empty _
  have hsep : readExif exifOf modelMap f
      = joinSep [trimQuotes m,
          pad4 ((parseTime layout (trimQuotes ts)).getD zeroTime).year,
          pad2 ((parseTime layout (trimQuotes ts)).getD zeroTime).month, baseName f] := by
    rw [hjoin]
    unfold filepathJoin
    congr 1
    simp [h5ne, pad4_ne_empty, pad2_ne_empty, baseName_ne_empty]
  refine ⟨hjoin.trans hcons, ?_, ?_⟩
  · rw [hjoin, hcons]
    exact append_slash_ne _ _
  · rw [hsep]
    apply filepathClean_of_plain
    · intro x hx
      simp only [List.mem_cons, List.not_mem_nil, or_false] at hx
      rcases hx with rfl | rfl | rfl | rfl
      · exact h5
      · exact cleanComponent_pad4 _
      · exact cleanComponent_pad2 _
      · exact h6
    · simp

/-- C3 witness: a concrete part_000-revision environment with an
unknown device id resolves to raw-id/year/month/basename, and Go's
path cleaning leaves the result unchanged. -/
theorem c3_alias_fallback_witness :
    readExif (fun _ => some ⟨some "FooCam", some "2023:04:05 10:20:30"⟩) (fun _ => none)
      "x.jpg" = "FooCam/2023/04/x.jpg"
    ∧ filepathClean (readExif (fun _ => some ⟨some "FooCam", some "2023:04:05 10:20:30"⟩)
          (fun _ => none) "x.jpg")
        = readExif (fun _ => some ⟨some "FooCam", some "2023:04:05 10:20:30"⟩) (fun _ => none)
          "x.jpg" := by
  have h := c3_alias_fallback (fun _ => some ⟨some "FooCam", some "2023:04:05 10:20:30"⟩)
    (fun _ => none) "x.jpg" "FooCam" "2023:04:05 10:20:30"
    ⟨some "FooCam", some "2023:04:05 10:20:30"⟩ rfl rfl rfl rfl (by decide) (by decide)
  exact ⟨h.1.trans (by decide), h.2.2⟩

/-- C4 (code bug): with valid EXIF whose DateTimeOriginal value does
not parse under the fixed layout, the code does NOT report failure:
`time.Parse`'s error is discarded (src/main.go line 328,
src/unnamed/part_000 line 410) and the zero time is formatted into a
non-empty path, contradicting the spec's "parse failure yields
ok=false". -/
theorem c4_zero_time_path :
    parseTime layout (trimQuotes "not a timestamp") = none
    ∧ readExif (fun _ => some ⟨some "FooCam", some "not a timestamp"⟩) (fun _ => none)
        "x.jpg" = "FooCam/0001/01/x.jpg"
    ∧ ¬ readExif (fun _ => some ⟨some "FooCam", some "not a timestamp"⟩) (fun _ => none)
        "x.jpg" = "" := by
  refine ⟨by decide, by decide, by decide⟩

/-- C5 counterexample: in the src/unnamed/part_000 revision the rename
helper lower-cases the extension before stripping it, so an upper-case
extension is not stripped: "a.JPG" becomes full-name + suffix +
lower-cased extension, not stem + suffix + original extension. -/
theorem c5_counterexample :
    generateNewFileName2 ⟨2023, 4, 5, 10, 20, 30⟩ "a.JPG" = "a.JPG_new_20230405102030.jpg"
    ∧ ¬ generateNewFileName2 ⟨2023, 4, 5, 10, 20, 30⟩ "a.JPG"
        = "a_new_20230405102030.JPG" := by
  refine ⟨by decide, by decide⟩

/-- C5 amended: the claimed rename shape - original stem, literal
"_new_", the 14-digit current timestamp, original extension unchanged -
holds for EVERY filename, upper-case extensions included, in the
src/main.go revision (`generateNewFileName`): its stem/extension
conjuncts below are unconditional. In the src/unnamed/part_000 revision
(`generateNewFileName2`) the extension is lower-cased before stripping,
so the shape holds exactly when lower-casing does not change the
extension (the guarded final conjunct) and fails for upper-case
extensions (counterexample). -/
theorem c5_rename_format (now : DateTime) (f : String)
    (hy : now.year < 10000) (hmo : now.month < 100) (hd : now.day < 100)
    (hh : now.hour < 100) (hmi : now.minute < 100) (hs : now.second < 100) :
    (format14 now).length = 14
    ∧ generateNewFileName now f
        = trimSuffix f (filepathExt f) ++ "_new_" ++ format14 now ++ filepathExt f
    ∧ trimSuffix f (filepathExt f) ++ filepathExt f = f
    ∧ (getFileExtension f true = filepathExt f →
        generateNewFileName2 now f
          = trimSuffix f (filepathExt f) ++ "_new_" ++ format14 now ++ filepathExt f) := by
  refine ⟨format14_length now hy hmo hd hh hmi hs, rfl, ?_, ?_⟩
  · exact trimSuffix_append_of_suffix f (filepathExt f) (ext_data_suffix f)
  · intro hlow
    unfold generateNewFileName2
    rw [hlow]

/-- C5 witness: the main.go rename on the upper-case-extension name
"a.JPG" keeps stem "a" and extension ".JPG" unchanged, and the
part_000 rename agrees with the claimed shape on a lower-case name. -/
theorem c5_rename_format_witness :
    generateNewFileName ⟨2023, 4, 5, 10, 20, 30⟩ "a.JPG" = "a_new_20230405102030.JPG"
    ∧ trimSuffix "a.JPG" (filepathExt "a.JPG") ++ filepathExt "a.JPG" = "a.JPG"
    ∧ (format14 ⟨2023, 4, 5, 10, 20, 30⟩).length = 14
    ∧ generateNewFileName2 ⟨2023, 4, 5, 10, 20, 30⟩ "photos/img.jpg"
        = trimSuffix "photos/img.jpg" (filepathExt "photos/img.jpg") ++ "_new_"
          ++ format14 ⟨2023, 4, 5, 10, 20, 30⟩ ++ filepathExt "photos/img.jpg" := by
  have hU := c5_rename_format ⟨2023, 4, 5, 10, 20, 30⟩ "a.JPG" (by decide) (by decide)
    (by decide) (by decide) (by decide) (by decide)
  have hL := c5_rename_format ⟨2023, 4, 5, 10, 20, 30⟩ "photos/img.jpg" (by decide)
    (by decide) (by decide) (by decide) (by decide) (by decide)
  exact ⟨hU.2.1.trans (by decide), hU.2.2.1, hU.1, hL.2.2.2 (by decide)⟩

/-- C6: for a file whose metadata extraction failed and whose name
contains, anywhere, mmexport followed by ten digits starting with 1,
resolution succeeds via Strategy A: the (leftmost) matched digits, read
as a Unix epoch second count in the local zone, give the year and month
of the resolved path year/month/basename, which has no alias segment. -/
theorem c6_wx_export (env : Env) (f : String)
    (hmeta : readExif env.exifOf env.modelMap f = "")
    (hsub : ∃ pre ds post, f.data = pre ++ (wxChars ds ++ post)
      ∧ ds.length = 10 ∧ ds.head? = some '1' ∧ ds.all isDigitChar = true) :
    ∃ ds, findWx f.data = some ds ∧ ds.length = 10 ∧ ds.head? = some '1'
      ∧ ds.all isDigitChar = true
      ∧ processImage env f
        = (pad4 (unixToDateTime (env.tzOff (digitsToNat ds)) (digitsToNat ds)).year
            ++ "/" ++ (pad2 (unixToDateTime (env.tzOff (digitsToNat ds)) (digitsToNat ds)).month
            ++ "/" ++ baseName f), none) := by
  obtain ⟨pre, ds0, post, hf, h10, h1, hdig⟩ := hsub
  have hsome : (findWx f.data).isSome = true := by
    rw [hf]
    exact findWx_of_contains pre ds0 post h10 h1 hdig
  obtain ⟨ds, hds⟩ := Option.isSome_iff_exists.mp hsome
  obtain ⟨hl, hh, ha⟩ := findWx_shape f.data ds hds
  refine ⟨ds, hds, hl, hh, ha, ?_⟩
  have hw : matchWxExport env.tzOff f
      = filepathJoin [pad4 (unixToDateTime (env.tzOff (digitsToNat ds)) (digitsToNat ds)).year,
          pad2 (unixToDateTime (env.tzOff (digitsToNat ds)) (digitsToNat ds)).month,
          baseName f] := by
    unfold matchWxExport
    rw [hds]
    simp [parseIntDigits_of_ten ds hl ha]
  have hw3 : matchWxExport env.tzOff f
      = pad4 (unixToDateTime (env.tzOff (digitsToNat ds)) (digitsToNat ds)).year
        ++ "/" ++ (pad2 (unixToDateTime (env.tzOff (digitsToNat ds)) (digitsToNat ds)).month
        ++ "/" ++ baseName f) := by
    rw [hw, filepathJoin3 _ _ _ (pad4_ne_empty _) (pad2_ne_empty _) (baseName_ne_empty f)]
  have hne : ¬ (pad4 (unixToDateTime (env.tzOff (digitsToNat ds)) (digitsToNat ds)).year
      ++ "/" ++ (pad2 (unixToDateTime (env.tzOff (digitsToNat ds)) (digitsToNat ds)).month
      ++ "/" ++ baseName f)) = "" :=
    append_ne_empty_left _ _ (append_ne_empty_left _ _ (pad4_ne_empty _))
  unfold processImage
  rw [hmeta, hw3]
  simp [hne]

/-- C6 witness: the export code sits in the middle of the name; with a
UTC+8 zone, epoch 1672531200 is 2023-01-01 08:00 local. -/
theorem c6_wx_export_witness :
    processImage env0 "IMG_mmexport1672531200_x.jpg"
      = ("2023/01/IMG_mmexport1672531200_x.jpg", none) := by
  have h := c6_wx_export env0 "IMG_mmexport1672531200_x.jpg" rfl
    ⟨"IMG_".data, ['1', '6', '7', '2', '5', '3', '1', '2', '0', '0'], "_x.jpg".data,
      by decide, by decide, by decide, by decide⟩
  obtain ⟨ds, hds, _, _, _, hres⟩ := h
  have hfind : findWx ("IMG_mmexport1672531200_x.jpg").data
      = some ['1', '6', '7', '2', '5', '3', '1', '2', '0', '0'] := by decide
  have hdseq : ds = ['1', '6', '7', '2', '5', '3', '1', '2', '0', '0'] :=
    Option.some.inj (hds.symm.trans hfind)
  subst hdseq
  exact hres.trans (by decide)

/-- C7 counterexample: `matchRegex` iterates the two-entry Go map
`regexTime`, whose iteration order is unspecified and can differ across
runs; on a filename matched by both patterns the two possible orders
resolve to different destinations, so the same filename does NOT always
resolve identically across repeated runs. -/
theorem c7_counterexample :
    regexTimeList.reverse = [(pat2, lay2), (pat1, lay1)]
    ∧ matchRegex regexTimeList "2023-04-05 10.20.30_20190102_112233.jpg"
        = "2019/01/2023-04-05 10.20.30_20190102_112233.jpg"
    ∧ matchRegex [(pat2, lay2), (pat1, lay1)] "2023-04-05 10.20.30_20190102_112233.jpg"
        = "2023/04/2023-04-05 10.20.30_20190102_112233.jpg"
    ∧ ¬ ("2019/01/2023-04-05 10.20.30_20190102_112233.jpg" : String)
        = "2023/04/2023-04-05 10.20.30_20190102_112233.jpg" := by
  refine ⟨rfl, by decide, by decide, by decide⟩

/-- C7 amended: resolution is a pure function of its inputs including
the pattern iteration order, so it is deterministic and idempotent for
a FIXED order; and across the two possible iteration orders of the
two-entry pattern map, a filename matched by at most one of the two
patterns resolves identically — only filenames matched by both patterns
(counterexample) can resolve differently across runs. -/
theorem c7_fixed_order_determinism (o : List (List RTok × String)) (f : String)
    (ho : o = regexTimeList ∨ o = regexTimeList.reverse)
    (hone : findToks pat1 f.data = none ∨ findToks pat2 f.data = none) :
    matchRegex o f = matchRegex regexTimeList f := by
  rcases ho with ho | ho
  · rw [ho]
  · rw [ho, show regexTimeList.reverse = [(pat2, lay2), (pat1, lay1)] from rfl,
      show regexTimeList = [(pat1, lay1), (pat2, lay2)] from rfl]
    rcases hone with h | h
    · rw [matchRegex_cons, matchRegex_cons, h]
      rcases h2 : findToks pat2 f.data with _ | m
      · simp [matchRegex_cons, matchRegex_nil, h, h2]
      · simp [matchRegex_cons, matchRegex_nil, h, h2]
    · rw [matchRegex_cons, matchRegex_cons, h]
      rcases h1 : findToks pat1 f.data with _ | m
      · simp [matchRegex_cons, matchRegex_nil, h, h1]
      · simp [matchRegex_cons, matchRegex_nil, h, h1]

/-- C7 witness: a filename matched only by the first pattern resolves
identically under both iteration orders of the pattern map. -/
theorem c7_fixed_order_determinism_witness :
    matchRegex regexTimeList.reverse "IMG_20230102_112233.jpg"
      = matchRegex regexTimeList "IMG_20230102_112233.jpg" :=
  c7_fixed_order_determinism regexTimeList.reverse "IMG_20230102_112233.jpg"
    (Or.inr rfl) (Or.inr (by decide))

/-- C8: when the first pattern of the iteration order matches but the
matched substring fails to parse under the paired layout, `matchRegex`
still formats the zero time into a path — year "0001", month "01" —
instead of treating the parse failure as a non-match and moving to the
next pattern. -/
theorem c8_zero_time_on_parse_failure (o : List (List RTok × String)) (p : List RTok)
    (lay f : String) (rest : List (List RTok × String)) (m : List Char)
    (ho : o = (p, lay) :: rest) (hm : findToks p f.data = some m)
    (hp : parseTime lay (String.mk m) = none) :
    matchRegex o f = filepathJoin ["0001", "01", baseName f]
    ∧ filepathJoin ["0001", "01", baseName f] = "0001/01/" ++ baseName f := by
  constructor
  · rw [ho, matchRegex_cons, hm]
    simp only [hp, Option.getD_none]
    rw [show pad4 zeroTime.year = "0001" from by decide,
      show pad2 zeroTime.month = "01" from by decide]
  · exact join3_explicit (baseName f) (baseName_ne_empty f)

/-- C8 witness: "20231301_123456.jpg" matches the first pattern but
month 13 fails validation, and the file is filed under 0001/01. -/
theorem c8_zero_time_witness :
    matchRegex regexTimeList "20231301_123456.jpg"
      = filepathJoin ["0001", "01", baseName "20231301_123456.jpg"]
    ∧ filepathJoin ["0001", "01", baseName "20231301_123456.jpg"]
      = "0001/01/" ++ baseName "20231301_123456.jpg" :=
  c8_zero_time_on_parse_failure regexTimeList pat1 lay1 "20231301_123456.jpg"
    [(pat2, lay2)] ("20231301_123456".data) rfl (by decide) (by decide)
